import Mathlib

/-!
# godrone: actuator driver, attitude mixer and sensor calibration

A shallow embedding of `drivers/motorboard/motorboard.go`, `controller.go` and
`drivers/navboard/navboard.go`.

Modelling conventions.
* A finite Go `float64` value is modelled by the rational number it denotes; NaN and the
  infinities are outside the model.
* In `motorboard.go` every `float64` operation is the exact operation followed by `roundF64`,
  the IEEE 754 rounding to the nearest binary64 value (ties to even), and `int(x)` is
  `floatToInt` with the amd64 result for values outside the `int64` range.
* In `controller.go` and `navboard.go` the `float64` operations are modelled by exact rational
  arithmetic; `math.Max` and `math.Min` are `max` and `min`, and `math.Sqrt` is a parameter.
* Go `int` values are modelled by `Int`; a `byte` is a `Nat` below 256, and the conversion
  `byte(x)` is reduction modulo 256.
* A method that mutates its receiver takes the old state and returns the new one.
* The reader/writer lock and the background flush loop are not modelled: every operation is
  embedded as the atomic step it is under the lock.
-/

namespace Godrone

/-! ## Go run-time behaviour shared by the drivers -/

/-- Result of a call that either returns a value, returns a Go `error`, or aborts with a
run-time panic (here always an index out of range). -/
inductive Outcome (ε α : Type) where
  | ok : α → Outcome ε α
  | error : ε → Outcome ε α
  | crash : Outcome ε α
deriving DecidableEq

/-- A Go array of length four, such as `[4]int`. -/
structure Arr4 (α : Type) where
  e0 : α
  e1 : α
  e2 : α
  e3 : α
deriving DecidableEq

/-- Indexing `a[i]` with a Go `int` index: `none` stands for the index-out-of-range panic. -/
def Arr4.get? {α : Type} (a : Arr4 α) (i : Int) : Option α :=
  if i = 0 then some a.e0
  else if i = 1 then some a.e1
  else if i = 2 then some a.e2
  else if i = 3 then some a.e3
  else none

/-- Assignment `a[i] = v` with a Go `int` index: `none` stands for the index-out-of-range
panic. -/
def Arr4.set? {α : Type} (a : Arr4 α) (i : Int) (v : α) : Option (Arr4 α) :=
  if i = 0 then some { a with e0 := v }
  else if i = 1 then some { a with e1 := v }
  else if i = 2 then some { a with e2 := v }
  else if i = 3 then some { a with e3 := v }
  else none

/-- The elements of the array in index order, as `range` visits them. -/
def Arr4.toList {α : Type} (a : Arr4 α) : List α := [a.e0, a.e1, a.e2, a.e3]

/-- The rational `x` with its fraction discarded (truncation toward zero). -/
def truncToInt (x : ℚ) : Int := Int.tdiv x.num x.den

/-- The conversion `int(x)` of a `float64` to the 64-bit `int`: the fraction is discarded; for a
value outside the `int64` range the Go specification leaves the result to the implementation,
and the amd64 result `-2^63` is used. -/
def floatToInt (x : ℚ) : Int :=
  if -2 ^ 63 ≤ truncToInt x ∧ truncToInt x < 2 ^ 63 then truncToInt x else -2 ^ 63

/-- The power `2 ^ e` as a rational, for an integer exponent. -/
def pow2 (e : Int) : ℚ :=
  if 0 ≤ e then ((2 ^ e.toNat : Nat) : ℚ) else 1 / ((2 ^ (-e).toNat : Nat) : ℚ)

/-- Rounding of a rational to the nearest integer, a tie going to the even neighbour. -/
def roundHalfEven (t : ℚ) : Int :=
  if t - ⌊t⌋ < 1 / 2 then ⌊t⌋
  else if 1 / 2 < t - ⌊t⌋ then ⌊t⌋ + 1
  else if ⌊t⌋ % 2 = 0 then ⌊t⌋ else ⌊t⌋ + 1

/-- Number of halvings that take `n` below 2, at most `fuel` of them. -/
def log2Aux : Nat → Nat → Nat
  | 0, _ => 0
  | fuel + 1, n => if 2 ≤ n then log2Aux fuel (n / 2) + 1 else 0

/-- The integer part of the binary logarithm of `n` (0 for `n = 0`). -/
def log2Nat (n : Nat) : Nat := log2Aux n n

/-- The binary exponent of a non-zero rational: the `e` with `2 ^ e ≤ |x| < 2 ^ (e + 1)`. -/
def binade (x : ℚ) : Int :=
  let c : Int := (log2Nat x.num.natAbs : Int) - (log2Nat x.den : Int)
  if pow2 c ≤ |x| then c else c - 1

/-- Spacing of the binary64 values around `x`: 53 significant bits, and the fixed spacing
`2 ^ (-1074)` of the subnormal range below `2 ^ (-1022)`. -/
def ulp (x : ℚ) : ℚ := pow2 (max (binade x) (-1022) - 52)

/-- The IEEE 754 rounding of a rational to the nearest binary64 value, ties to even. A result
of magnitude `2 ^ 1024` or more stands for an infinity. -/
def roundF64 (x : ℚ) : ℚ := (roundHalfEven (x / ulp x) : ℚ) * ulp x

/-- The conversion `byte(x)` of a non-negative integer. -/
def toByte (x : Nat) : Nat := x % 256

/-! ## drivers/motorboard/motorboard.go -/

/-- The constant `PWM_MAX = float64(511)`. -/
def PWM_MAX : ℚ := 511

/-- The type `LedColor int`. -/
abbrev LedColor := Int

/-- The constant `LedOff`. -/
def LedOff : LedColor := 0
/-- The constant `LedRed`. -/
def LedRed : LedColor := 1
/-- The constant `LedGreen`. -/
def LedGreen : LedColor := 2
/-- The constant `LedOrange`. -/
def LedOrange : LedColor := 3

/-- The fields of `Motorboard` that hold actuator state (`pwms`, `leds`, `ledsChanged`). -/
structure Motorboard where
  pwms : Arr4 Int
  leds : Arr4 LedColor
  ledsChanged : Bool
deriving DecidableEq

/-- The state `&Motorboard{log: log, hz: 20}` built by `NewMotorboard`: all zero. -/
def Motorboard.init : Motorboard :=
  { pwms := ⟨0, 0, 0, 0⟩, leds := ⟨0, 0, 0, 0⟩, ledsChanged := false }

/-- The error `fmt.Errorf("unknown motor: %d", motorId)`. -/
inductive MotorError where
  | unknownMotor : Int → MotorError
deriving DecidableEq

/-- The method `Motorboard.Speed`: ids `>= len(m.pwms)` are answered with an error, then
`float64(m.pwms[motorId]) / PWM_MAX` is returned. -/
def Motorboard.Speed (m : Motorboard) (motorId : Int) : Outcome MotorError ℚ :=
  if motorId ≥ 4 then .error (.unknownMotor motorId)
  else
    match m.pwms.get? motorId with
    | none => .crash
    | some p => .ok (roundF64 (roundF64 (p : ℚ) / PWM_MAX))

/-- The method `Motorboard.SetSpeed`: ids `>= len(m.pwms)` are answered with an error, then
`m.pwms[motorId] = int(speed * PWM_MAX)` is stored. -/
def Motorboard.SetSpeed (m : Motorboard) (motorId : Int) (speed : ℚ) :
    Outcome MotorError Motorboard :=
  if motorId ≥ 4 then .error (.unknownMotor motorId)
  else
    match m.pwms.set? motorId (floatToInt (roundF64 (speed * PWM_MAX))) with
    | none => .crash
    | some pwms => .ok { m with pwms := pwms }

/-- One iteration of the `range m.leds` loop of `ledCmd` on the pair `(cmd[0], cmd[1])`. -/
def ledCmdStep (cmd : Nat × Nat) (ic : Nat × LedColor) : Nat × Nat :=
  let c0 := if ic.2 = LedRed ∨ ic.2 = LedOrange
    then toByte (cmd.1 ||| toByte (1 <<< (toByte ic.1 + 1))) else cmd.1
  let c1 := if ic.2 = LedGreen ∨ ic.2 = LedOrange
    then toByte (cmd.2 ||| toByte (1 <<< (toByte ic.1 + 1))) else cmd.2
  (c0, c1)

/-- The method `Motorboard.ledCmd`: the two command bytes. -/
def Motorboard.ledCmd (m : Motorboard) : Nat × Nat :=
  m.leds.toList.enum.foldl ledCmdStep (0x60, 0)

/-- The subexpression `p & 0x1ff` for a Go `int`; the result is never negative. -/
def and1ff (p : Int) : Nat := (Int.land p 0x1ff).toNat

/-- The method `Motorboard.pwmCmd`: the five command bytes. -/
def Motorboard.pwmCmd (m : Motorboard) : List Nat :=
  [ toByte (0x20 ||| (and1ff m.pwms.e0 >>> 4)),
    toByte ((and1ff m.pwms.e0 <<< 4) ||| (and1ff m.pwms.e1 >>> 5)),
    toByte ((and1ff m.pwms.e1 <<< 3) ||| (and1ff m.pwms.e2 >>> 6)),
    toByte ((and1ff m.pwms.e2 <<< 2) ||| (and1ff m.pwms.e3 >>> 7)),
    toByte (and1ff m.pwms.e3 <<< 1) ]

/-- Decoder of the five-byte PWM command: the 36 bits after the three leading bits of byte 0,
read as four consecutive 9-bit big-endian fields. -/
def pwmDecode (cmd : List Nat) : Option (Arr4 Int) :=
  match cmd with
  | [b0, b1, b2, b3, b4] =>
    some ⟨(((b0 &&& 0x1f) <<< 4 ||| b1 >>> 4 : Nat) : Int),
          (((b1 &&& 0x0f) <<< 5 ||| b2 >>> 3 : Nat) : Int),
          (((b2 &&& 0x07) <<< 6 ||| b3 >>> 2 : Nat) : Int),
          (((b3 &&& 0x03) <<< 7 ||| b4 >>> 1 : Nat) : Int)⟩
  | _ => none

/-- Value (0 or 1) of bit `i` of the byte `b`. -/
def bitOf (b i : Nat) : Int := if b.testBit i then 1 else 0

/-- Decoder of the two-byte LED command: color `i` is (red bit) + 2 * (green bit), the red
bit being bit `i + 1` of byte 0 and the green bit being bit `i + 1` of byte 1. -/
def ledDecode (cmd : Nat × Nat) : Arr4 LedColor :=
  ⟨bitOf cmd.1 1 + 2 * bitOf cmd.2 1, bitOf cmd.1 2 + 2 * bitOf cmd.2 2,
   bitOf cmd.1 3 + 2 * bitOf cmd.2 3, bitOf cmd.1 4 + 2 * bitOf cmd.2 4⟩

/-- Every element of the array lies in the closed range `lo..hi`. -/
def Arr4.Within (a : Arr4 Int) (lo hi : Int) : Prop :=
  (lo ≤ a.e0 ∧ a.e0 ≤ hi) ∧ (lo ≤ a.e1 ∧ a.e1 ≤ hi) ∧
  (lo ≤ a.e2 ∧ a.e2 ≤ hi) ∧ (lo ≤ a.e3 ∧ a.e3 ≤ hi)

instance (a : Arr4 Int) (lo hi : Int) : Decidable (a.Within lo hi) := by
  unfold Arr4.Within; infer_instance

/-- State after a sequence of `SetSpeed(motorId, speed)` calls: a call that returns an error
or aborts stores nothing, and the next call sees the state it left. -/
def runSetSpeeds (m : Motorboard) : List (Int × ℚ) → Motorboard
  | [] => m
  | call :: calls =>
    match m.SetSpeed call.1 call.2 with
    | .ok m' => runSetSpeeds m' calls
    | .error _ => runSetSpeeds m calls
    | .crash => runSetSpeeds m calls

/-- Check of the PWM value `k` used in the proofs: `k` is a binary64 value, and the quotient
`float64(k) / 511` that `Speed` returns lies close enough to `k / 511`. -/
def pwmQuotientOk (k : Nat) : Bool :=
  decide (roundF64 (k : ℚ) = k ∧
    (k : ℚ) / 511 - roundF64 ((k : ℚ) / 511) ≤ pow2 ((log2Nat k : Int) - 53) / 511 ∧
    roundF64 ((k : ℚ) / 511) ≤ ((k : ℚ) + 1 - pow2 (-45)) / 511 ∧
    pow2 ((log2Nat k : Int) - 53) ≤ 1)

/-! ## controller.go -/

/-- Modelled from the spec: the type `Placement` is not among the sources; per §3 it has the
four real-valued fields Pitch, Roll, Yaw and Altitude. -/
structure Placement where
  Pitch : ℚ
  Roll : ℚ
  Yaw : ℚ
  Altitude : ℚ
deriving DecidableEq

/-- Modelled from the spec: the type `PID` is not among the sources; per §3 it holds the three
gains and the mutable integral accumulator and previous error. -/
structure PID where
  gainP : ℚ
  gainI : ℚ
  gainD : ℚ
  integral : ℚ
  previousError : ℚ
deriving DecidableEq

/-- Modelled from the spec: the method `PID.Update` is not among the sources; §4.1 gives
`error = desired - actual`, `integral += error * dt`, `derivative = (error - previous_error) / dt`
(0 when `dt == 0`), `output = gain_p*error + gain_i*integral + gain_d*derivative`, and
`previous_error = error`. Returns the updated PID and the output. -/
def PID.Update (p : PID) (actual desired dt : ℚ) : PID × ℚ :=
  let error := desired - actual
  let integral := p.integral + error * dt
  let derivative := if dt = 0 then 0 else (error - p.previousError) / dt
  let output := p.gainP * error + p.gainI * integral + p.gainD * derivative
  ({ p with integral := integral, previousError := error }, output)

/-- The struct `Controller`. -/
structure Controller where
  RotationBand : ℚ
  ThrottleHover : ℚ
  ThrottleMin : ℚ
  Pitch : PID
  Roll : PID
  Yaw : PID
  Altitude : PID
deriving DecidableEq

/-- The function `clip(val, max)`. -/
def clip (val bound : ℚ) : ℚ := max (min val bound) (-bound)

/-- The function `clipBand(val, band)`. -/
def clipBand (val band : ℚ) : ℚ := band / 2 + clip val (band / 2)

/-- The local `throttle` of `Control`, as a function of the altitude PID output. -/
def Controller.throttle (c : Controller) (altOut : ℚ) : ℚ :=
  max c.ThrottleMin (min (1 - c.RotationBand) (c.ThrottleMin + altOut))

/-- The method `Controller.Control`. The identifier `rotationBand` passed to `clipBand` is
declared nowhere in the sources and is taken as the parameter `rotationBand`. The four
`Update` calls run in source order, each on the receiver the source names; the result is the
controller after the call and the four speeds. -/
def Controller.Control (rotationBand : ℚ) (c : Controller) (actual desired : Placement)
    (dt : ℚ) : Controller × Arr4 ℚ :=
  let r1 := c.Roll.Update actual.Pitch desired.Pitch dt
  let pitchOut := r1.2
  let r2 := r1.1.Update actual.Roll desired.Roll dt
  let rollOut := r2.2
  let y := c.Yaw.Update actual.Yaw desired.Yaw dt
  let yawOut := y.2
  let a := c.Altitude.Update actual.Altitude desired.Altitude dt
  let altOut := a.2
  let throttle := c.throttle altOut
  ({ c with Roll := r2.1, Yaw := y.1, Altitude := a.1 },
   ⟨throttle + clipBand (rollOut + pitchOut + yawOut) rotationBand,
    throttle + clipBand (-rollOut + pitchOut - yawOut) rotationBand,
    throttle + clipBand (-rollOut - pitchOut + yawOut) rotationBand,
    throttle + clipBand (rollOut - pitchOut - yawOut) rotationBand⟩)

/-- Every element of the array lies in the closed interval `[lo, hi]`. -/
def Arr4.Between (a : Arr4 ℚ) (lo hi : ℚ) : Prop :=
  (lo ≤ a.e0 ∧ a.e0 ≤ hi) ∧ (lo ≤ a.e1 ∧ a.e1 ≤ hi) ∧
  (lo ≤ a.e2 ∧ a.e2 ≤ hi) ∧ (lo ≤ a.e3 ∧ a.e3 ≤ hi)

instance (a : Arr4 ℚ) (lo hi : ℚ) : Decidable (a.Between lo hi) := by
  unfold Arr4.Between; infer_instance

/-- Example controller: the Pitch PID has gains P = I = 1, the Roll PID only I = 1. -/
def exampleController : Controller :=
  { RotationBand := 1 / 2, ThrottleHover := 0, ThrottleMin := 0,
    Pitch := ⟨1, 1, 0, 0, 0⟩, Roll := ⟨0, 1, 0, 0, 0⟩,
    Yaw := ⟨0, 0, 0, 0, 0⟩, Altitude := ⟨0, 0, 0, 0, 0⟩ }

/-! ## drivers/navboard/data.go and drivers/navboard/navboard.go -/

/-- The struct `Data` of `data.go`: one decoded frame (every field an integer). -/
structure Data where
  Seq : Int := 0
  Ax : Int := 0
  Ay : Int := 0
  Az : Int := 0
  Gx : Int := 0
  Gy : Int := 0
  Gz : Int := 0
  TemperatureAcc : Int := 0
  TemperatureGyro : Int := 0
  Ultrasound : Int := 0
  UsDebutEcho : Int := 0
  UsFinEcho : Int := 0
  UsAssociationEcho : Int := 0
  UsDistanceEcho : Int := 0
  UsCurveTime : Int := 0
  UsCurveValue : Int := 0
  UsCurveRef : Int := 0
  NbEcho : Int := 0
  SumEcho : Int := 0
  Gradient : Int := 0
  FlagEchoIni : Int := 0
  Pressure : Int := 0
  TemperaturePressure : Int := 0
  Mx : Int := 0
  My : Int := 0
  Mz : Int := 0
  Checksum : Int := 0

/-- Modelled from the spec: the type `imu.Floats` is not among the sources; it is the array of
the six axis values, indexed in the order Ax, Ay, Az, Gx, Gy, Gz of `names`. -/
structure Floats where
  v0 : ℚ
  v1 : ℚ
  v2 : ℚ
  v3 : ℚ
  v4 : ℚ
  v5 : ℚ
deriving DecidableEq

/-- The element `f[i]`. -/
def Floats.get (f : Floats) (i : Fin 6) : ℚ :=
  match i with
  | 0 => f.v0
  | 1 => f.v1
  | 2 => f.v2
  | 3 => f.v3
  | 4 => f.v4
  | 5 => f.v5

/-- The array whose element `i` is `g i`: the result of a loop that assigns every index. -/
def Floats.ofFn (g : Fin 6 → ℚ) : Floats := ⟨g 0, g 1, g 2, g 3, g 4, g 5⟩

/-- The assignment `f[i] = x`. -/
def Floats.set (f : Floats) (i : Fin 6) (x : ℚ) : Floats :=
  Floats.ofFn fun j => if j = i then x else f.get j

/-- The zero value of `imu.Floats`. -/
def Floats.zero : Floats := ⟨0, 0, 0, 0, 0, 0⟩

/-- Modelled from the spec: the index constants `imu.Ax` .. `imu.Gz` are not among the
sources; they follow the axis order Ax, Ay, Az, Gx, Gy, Gz. -/
def imuAx : Fin 6 := 0
/-- See `imuAx`. -/
def imuAy : Fin 6 := 1
/-- See `imuAx`. -/
def imuAz : Fin 6 := 2
/-- See `imuAx`. -/
def imuGx : Fin 6 := 3
/-- See `imuAx`. -/
def imuGy : Fin 6 := 4
/-- See `imuAx`. -/
def imuGz : Fin 6 := 5

/-- Modelled from the spec: the type `imu.Data` is not among the sources; per §3 it has six
real-valued fields, one per axis. -/
structure ImuData where
  Ax : ℚ
  Ay : ℚ
  Az : ℚ
  Gx : ℚ
  Gy : ℚ
  Gz : ℚ
deriving DecidableEq

/-- Modelled from the spec: `imu.NewData` is not among the sources; it builds the six-field
value from the six-element array. -/
def NewData (f : Floats) : ImuData := ⟨f.v0, f.v1, f.v2, f.v3, f.v4, f.v5⟩

/-- Modelled from the spec: `imu.Data.Floats` is not among the sources; it is the inverse of
`NewData`. -/
def ImuData.Floats (d : ImuData) : Floats := ⟨d.Ax, d.Ay, d.Az, d.Gx, d.Gy, d.Gz⟩

/-- Modelled from the spec: `Data.ImuData` is not among the sources; it takes the six raw
inertial fields of the frame as real values. -/
def Data.ImuData (d : Data) : ImuData := ⟨d.Ax, d.Ay, d.Az, d.Gx, d.Gy, d.Gz⟩

/-- The struct `calibration`. -/
structure calibration where
  Offsets : ImuData
  Gains : ImuData
deriving DecidableEq

/-- The field of `Navboard` that `Calibrate` writes. -/
structure Navboard where
  calibration : calibration
deriving DecidableEq

/-- The errors `Calibrate` returns: the read error of `NextData` handed on, or
`ErrStdev{stdev, sensor}`. -/
inductive CalibrateError (ε : Type) where
  | read : ε → CalibrateError ε
  | ErrStdev : ℚ → String → CalibrateError ε
deriving DecidableEq

/-- The local `names` of `Calibrate`. -/
def names : List String := ["Ax", "Ay", "Az", "Gx", "Gy", "Gz"]

deriving instance DecidableEq for Except

/-- The first loop of `Calibrate`, `for len(samples) < cap(samples)` with `cap(samples) = 40`.
`reads k` is the result of the `k`-th call of `NextData` (its `Raw` frame or its error); the
loop state is the number `k` of calls made, `retries`, `samples` and `sums`. One unit of `fuel`
is one iteration; `none` means the fuel ran out. -/
def collectLoop {ε : Type} (reads : Nat → Except ε Data) :
    Nat → Nat → Int → List Floats → Floats → Option (Except ε (List Floats × Floats))
  | 0, _, _, _, _ => none
  | fuel + 1, k, retries, samples, sums =>
    if samples.length < 40 then
      match reads k with
      | .error err =>
        if retries ≤ 0 then some (.error err)
        else collectLoop reads fuel (k + 1) (retries - 1) samples sums
      | .ok data =>
        let values := data.ImuData.Floats
        collectLoop reads fuel (k + 1) retries (samples ++ [values])
          (Floats.ofFn fun i => sums.get i + values.get i)
    else some (.ok (samples, sums))

/-- The first loop of `Calibrate` from its initial state (`retries = 100`, no samples, zero
sums); 141 iterations are enough for 40 samples and 101 failed reads. -/
def collectSamples {ε : Type} (reads : Nat → Except ε Data) :
    Option (Except ε (List Floats × Floats)) :=
  collectLoop reads 141 0 100 [] Floats.zero

/-- The second and third loop of `Calibrate`: `means[i] = sums[i] / float64(len(samples))`. -/
def calMeans (samples : List Floats) (sums : Floats) : Floats :=
  Floats.ofFn fun i => sums.get i / (samples.length : ℚ)

/-- The loop of `Calibrate` that accumulates `sqrSums`. -/
def calSqrSums (samples : List Floats) (means : Floats) : Floats :=
  samples.foldl
    (fun sqrSums values => Floats.ofFn fun i =>
      sqrSums.get i + (values.get i - means.get i) * (values.get i - means.get i))
    Floats.zero

/-- The loop `stdevs[i] = math.Sqrt(sqrSums[i] / float64(len(samples)))`; `math.Sqrt` is the
parameter `sqrt`. -/
def calStdevs (sqrt : ℚ → ℚ) (samples : List Floats) (sqrSums : Floats) : Floats :=
  Floats.ofFn fun i => sqrt (sqrSums.get i / (samples.length : ℚ))

/-- The method `Navboard.Calibrate`. `math.Sqrt` is the parameter `sqrt`, and `reads` gives
the results of the successive `NextData` calls. The result is the navboard after the call and
the returned error (`none` for `nil`); the outer `none` means the first loop ran out of
fuel. -/
def Navboard.Calibrate {ε : Type} (sqrt : ℚ → ℚ) (n : Navboard) (reads : Nat → Except ε Data) :
    Option (Navboard × Option (CalibrateError ε)) :=
  match collectSamples reads with
  | none => none
  | some (.error err) => some (n, some (.read err))
  | some (.ok (samples, sums)) =>
    let means := calMeans samples sums
    let sqrSums := calSqrSums samples means
    let stdevs := calStdevs sqrt samples sqrSums
    match (List.finRange 6).find? (fun i => decide (stdevs.get i > 10)) with
    | some i => some (n, some (.ErrStdev (stdevs.get i) (names.getD i.val "")))
    | none =>
      let o := means
      let g := Floats.zero
      let ag := o.get imuAz - (o.get imuAx + o.get imuAy) / 2
      let g := ((g.set imuAx ag).set imuAy ag).set imuAz ag
      let o := o.set imuAz (o.get imuAz - ag)
      let g := ((g.set imuGx 1).set imuGy 1).set imuGz 1
      some ({ n with calibration := { Offsets := NewData o, Gains := NewData g } }, none)

/-- The frames that the first `k` calls of `NextData` returned, in call order; a failed call
contributes none. -/
def framesRead {ε : Type} (reads : Nat → Except ε Data) (k : Nat) : List Data :=
  (List.range k).filterMap fun j =>
    match reads j with
    | .ok d => some d
    | .error _ => none

/-- The raw value of axis `i` of a frame, the axes numbered in the order Ax, Ay, Az, Gx, Gy,
Gz. -/
def Data.axis (d : Data) (i : Fin 6) : ℚ :=
  match i with
  | 0 => d.Ax
  | 1 => d.Ay
  | 2 => d.Az
  | 3 => d.Gx
  | 4 => d.Gy
  | 5 => d.Gz

/-- The name of axis `i`. -/
def axisName (i : Fin 6) : String :=
  match i with
  | 0 => "Ax"
  | 1 => "Ay"
  | 2 => "Az"
  | 3 => "Gx"
  | 4 => "Gy"
  | 5 => "Gz"

/-- Mean of axis `i` over the 40 frames of a calibration run. -/
def axisMean (frames : List Data) (i : Fin 6) : ℚ :=
  (frames.map fun d => d.axis i).sum / 40

/-- Population variance of axis `i` over the 40 frames of a calibration run. -/
def axisVariance (frames : List Data) (i : Fin 6) : ℚ :=
  (frames.map fun d => (d.axis i - axisMean frames i) ^ 2).sum / 40

/-- Population standard deviation of axis `i`: the square root of the population variance. -/
def axisStdev (sqrt : ℚ → ℚ) (frames : List Data) (i : Fin 6) : ℚ :=
  sqrt (axisVariance frames i)

/-- Example run of `NextData` with a noisy Gy axis: the frames alternate between Gy = -20 and
Gy = 20. -/
def noisyReads (k : Nat) : Except String Data :=
  .ok { Ax := 10, Ay := 20, Az := 1015, Gx := 3, Gy := if k % 2 = 0 then -20 else 20, Gz := 5 }

/-- A computable stand-in for `math.Sqrt` that is exact on squares of rationals. -/
def exampleSqrt (x : ℚ) : ℚ := Rat.sqrt x

/-- The navboard state before calibration: all offsets and gains zero. -/
def Navboard.init : Navboard := ⟨⟨⟨0, 0, 0, 0, 0, 0⟩, ⟨0, 0, 0, 0, 0, 0⟩⟩⟩

/-! # Theorems -/

/-! ## Helper lemmas: command bytes -/

theorem shl_lor_eq_add (a b k : Nat) (h : b < 2 ^ k) : a <<< k ||| b = a * 2 ^ k + b := by
  rw [Nat.shiftLeft_eq, Nat.mul_comm a, ← Nat.mul_add_lt_is_or h]

theorem and1ff_of_range (p : Int) (h0 : 0 ≤ p) (h1 : p ≤ 511) :
    and1ff p = p.toNat ∧ p.toNat < 512 := by
  obtain ⟨n, rfl⟩ := Int.eq_ofNat_of_zero_le h0
  have hn : n < 512 := by omega
  refine ⟨?_, by simpa using hn⟩
  show (n &&& (2 ^ 9 - 1)) = n
  rw [Nat.and_pow_two_sub_one_eq_mod]
  omega

theorem pwm_pack_unpack (a b c d : Nat) (ha : a < 512) (hb : b < 512) (hc : c < 512)
    (hd : d < 512) :
    pwmDecode [ toByte (0x20 ||| (a >>> 4)), toByte ((a <<< 4) ||| (b >>> 5)),
      toByte ((b <<< 3) ||| (c >>> 6)), toByte ((c <<< 2) ||| (d >>> 7)), toByte (d <<< 1) ]
      = some ⟨a, b, c, d⟩ := by
  have e0 : 0x20 ||| (a >>> 4) = 1 * 2 ^ 5 + a >>> 4 :=
    (shl_lor_eq_add 1 (a >>> 4) 5 (by rw [Nat.shiftRight_eq_div_pow]; omega))
  have e1 := shl_lor_eq_add a (b >>> 5) 4 (by rw [Nat.shiftRight_eq_div_pow]; omega)
  have e2 := shl_lor_eq_add b (c >>> 6) 3 (by rw [Nat.shiftRight_eq_div_pow]; omega)
  have e3 := shl_lor_eq_add c (d >>> 7) 2 (by rw [Nat.shiftRight_eq_div_pow]; omega)
  rw [e0, e1, e2, e3]
  simp only [pwmDecode, toByte]
  have m5 : ∀ x : Nat, x &&& 0x1f = x % 2 ^ 5 := fun x => Nat.and_pow_two_sub_one_eq_mod x 5
  have m4 : ∀ x : Nat, x &&& 0x0f = x % 2 ^ 4 := fun x => Nat.and_pow_two_sub_one_eq_mod x 4
  have m3 : ∀ x : Nat, x &&& 0x07 = x % 2 ^ 3 := fun x => Nat.and_pow_two_sub_one_eq_mod x 3
  have m2 : ∀ x : Nat, x &&& 0x03 = x % 2 ^ 2 := fun x => Nat.and_pow_two_sub_one_eq_mod x 2
  rw [m5, m4, m3, m2]
  rw [shl_lor_eq_add _ _ 4 (by rw [Nat.shiftRight_eq_div_pow]; omega),
    shl_lor_eq_add _ _ 5 (by rw [Nat.shiftRight_eq_div_pow]; omega),
    shl_lor_eq_add _ _ 6 (by rw [Nat.shiftRight_eq_div_pow]; omega),
    shl_lor_eq_add _ _ 7 (by rw [Nat.shiftRight_eq_div_pow]; omega)]
  simp only [Nat.shiftLeft_eq, Nat.shiftRight_eq_div_pow]
  have h0 : (1 * 2 ^ 5 + a / 2 ^ 4) % 256 % 2 ^ 5 * 2 ^ 4 + (a * 2 ^ 4 + b / 2 ^ 5) % 256 / 2 ^ 4
      = a := by omega
  have h1 : (a * 2 ^ 4 + b / 2 ^ 5) % 256 % 2 ^ 4 * 2 ^ 5 + (b * 2 ^ 3 + c / 2 ^ 6) % 256 / 2 ^ 3
      = b := by omega
  have h2 : (b * 2 ^ 3 + c / 2 ^ 6) % 256 % 2 ^ 3 * 2 ^ 6 + (c * 2 ^ 2 + d / 2 ^ 7) % 256 / 2 ^ 2
      = c := by omega
  have h3 : (c * 2 ^ 2 + d / 2 ^ 7) % 256 % 2 ^ 2 * 2 ^ 7 + d * 2 ^ 1 % 256 / 2 ^ 1
      = d := by omega
  rw [h0, h1, h2, h3]

theorem pwmDecode_pwmCmd (m : Motorboard) (h : m.pwms.Within 0 511) :
    pwmDecode m.pwmCmd = some m.pwms := by
  obtain ⟨⟨a0, a1⟩, ⟨b0, b1⟩, ⟨c0, c1⟩, ⟨d0, d1⟩⟩ := h
  obtain ⟨ea, la⟩ := and1ff_of_range _ a0 a1
  obtain ⟨eb, lb⟩ := and1ff_of_range _ b0 b1
  obtain ⟨ec, lc⟩ := and1ff_of_range _ c0 c1
  obtain ⟨ed, ld⟩ := and1ff_of_range _ d0 d1
  unfold Motorboard.pwmCmd
  rw [ea, eb, ec, ed, pwm_pack_unpack _ _ _ _ la lb lc ld]
  simp only [Int.toNat_of_nonneg a0, Int.toNat_of_nonneg b0, Int.toNat_of_nonneg c0,
    Int.toNat_of_nonneg d0]

/-! ## Helper lemmas: float64 rounding -/

theorem pow2_eq (e : Int) : pow2 e = (2 : ℚ) ^ e := by
  unfold pow2
  split_ifs with h
  · obtain ⟨n, rfl⟩ := Int.eq_ofNat_of_zero_le h
    simp
  · obtain ⟨n, hn⟩ : ∃ n : Nat, e = -(n : Int) := ⟨(-e).toNat, by omega⟩
    subst hn
    simp [zpow_neg]

theorem pow2_pos (e : Int) : 0 < pow2 e := by
  rw [pow2_eq]; positivity

theorem pow2_le_pow2 {a b : Int} (h : a ≤ b) : pow2 a ≤ pow2 b := by
  rw [pow2_eq, pow2_eq]
  exact zpow_le_zpow_right₀ (by norm_num) h

theorem log2Aux_spec : ∀ (fuel n : Nat), n ≤ fuel → 1 ≤ n →
    2 ^ log2Aux fuel n ≤ n ∧ n < 2 ^ (log2Aux fuel n + 1) := by
  intro fuel
  induction fuel with
  | zero => intro n h0 h1; omega
  | succ fuel ih =>
    intro n hf h1
    unfold log2Aux
    by_cases h2 : 2 ≤ n
    · rw [if_pos h2]
      obtain ⟨lo, hi⟩ := ih (n / 2) (by omega) (by omega)
      rw [pow_succ, pow_succ]
      constructor <;> omega
    · rw [if_neg h2]
      constructor <;> simp <;> omega

theorem log2Nat_spec (n : Nat) (h : 1 ≤ n) :
    2 ^ log2Nat n ≤ n ∧ n < 2 ^ (log2Nat n + 1) :=
  log2Aux_spec n n (le_refl n) h

theorem binade_spec (x : ℚ) (hx : x ≠ 0) :
    pow2 (binade x) ≤ |x| ∧ |x| < pow2 (binade x + 1) := by
  have hn : 1 ≤ x.num.natAbs := by
    have : x.num ≠ 0 := Rat.num_ne_zero.mpr hx
    omega
  have hd : 1 ≤ x.den := x.den_pos
  obtain ⟨na, nb⟩ := log2Nat_spec _ hn
  obtain ⟨da, db⟩ := log2Nat_spec _ hd
  have hx : |x| = (x.num.natAbs : ℚ) / (x.den : ℚ) := by
    conv_lhs => rw [← Rat.num_div_den x]
    rw [abs_div, Nat.abs_cast, Nat.cast_natAbs, Int.cast_abs]
  have naq : (2 : ℚ) ^ log2Nat x.num.natAbs ≤ (x.num.natAbs : ℚ) := by exact_mod_cast na
  have nbq : (x.num.natAbs : ℚ) < (2 : ℚ) ^ (log2Nat x.num.natAbs + 1) := by exact_mod_cast nb
  have daq : (2 : ℚ) ^ log2Nat x.den ≤ (x.den : ℚ) := by exact_mod_cast da
  have dbq : (x.den : ℚ) < (2 : ℚ) ^ (log2Nat x.den + 1) := by exact_mod_cast db
  have dpos : (0 : ℚ) < x.den := by exact_mod_cast hd
  have lower : pow2 ((log2Nat x.num.natAbs : Int) - (log2Nat x.den : Int) - 1) ≤ |x| := by
    rw [pow2_eq, hx, le_div_iff₀ dpos,
      show ((log2Nat x.num.natAbs : Int) - (log2Nat x.den : Int) - 1)
        = (log2Nat x.num.natAbs : Int) - ((log2Nat x.den + 1 : Nat) : Int) by push_cast; ring,
      zpow_sub₀ (by norm_num), zpow_natCast, zpow_natCast, div_mul_eq_mul_div,
      div_le_iff₀ (by positivity)]
    have : (0 : ℚ) ≤ (2 : ℚ) ^ log2Nat x.num.natAbs := by positivity
    nlinarith
  have upper : |x| < pow2 ((log2Nat x.num.natAbs : Int) - (log2Nat x.den : Int) + 1) := by
    rw [pow2_eq, hx, div_lt_iff₀ dpos,
      show ((log2Nat x.num.natAbs : Int) - (log2Nat x.den : Int) + 1)
        = ((log2Nat x.num.natAbs + 1 : Nat) : Int) - (log2Nat x.den : Int) by push_cast; ring,
      zpow_sub₀ (by norm_num), zpow_natCast, zpow_natCast, div_mul_eq_mul_div,
      lt_div_iff₀ (by positivity)]
    have : (0 : ℚ) < (2 : ℚ) ^ (log2Nat x.num.natAbs + 1) := by positivity
    nlinarith
  unfold binade
  simp only
  split_ifs with h
  · exact ⟨h, upper⟩
  · refine ⟨lower, ?_⟩
    rw [sub_add_cancel]
    exact lt_of_not_le h

theorem roundHalfEven_near (t : ℚ) :
    t - 1 / 2 ≤ (roundHalfEven t : ℚ) ∧ (roundHalfEven t : ℚ) ≤ t + 1 / 2 := by
  have lo := Int.floor_le t
  have hi := Int.lt_floor_add_one t
  unfold roundHalfEven
  split_ifs with h1 h2 h3 <;> push_cast <;> constructor <;> linarith

theorem roundHalfEven_ge (t : ℚ) (N : Int) (h : (N : ℚ) ≤ t) : N ≤ roundHalfEven t := by
  have hN : N ≤ ⌊t⌋ := Int.le_floor.mpr h
  unfold roundHalfEven
  split_ifs <;> omega

theorem roundHalfEven_le (t : ℚ) (N : Int) (h : t ≤ (N : ℚ)) : roundHalfEven t ≤ N := by
  rcases h.eq_or_lt with h | h
  · subst h
    unfold roundHalfEven
    simp
  · have hN : ⌊t⌋ < N := Int.floor_lt.mpr h
    unfold roundHalfEven
    split_ifs <;> omega

/-- Facts about rounding `p` against a value `y = N * ulp p` of the grid around `p`. -/
theorem roundF64_grid (p : ℚ) (N : Int) :
    (roundF64 p < N * ulp p → p ≤ N * ulp p - ulp p / 2) ∧
    ((N : ℚ) * ulp p ≤ roundF64 p → N * ulp p - ulp p / 2 ≤ p) ∧
    (p ≤ N * ulp p → roundF64 p ≤ N * ulp p) ∧
    ((N : ℚ) * ulp p ≤ p → N * ulp p ≤ roundF64 p) := by
  have hq : 0 < ulp p := pow2_pos _
  obtain ⟨lo, hi⟩ := roundHalfEven_near (p / ulp p)
  unfold roundF64
  refine ⟨fun h => ?_, fun h => ?_, fun h => ?_, fun h => ?_⟩
  · have h1 : (roundHalfEven (p / ulp p) : ℚ) < N := lt_of_mul_lt_mul_right h hq.le
    have h2 : roundHalfEven (p / ulp p) ≤ N - 1 := by
      have : roundHalfEven (p / ulp p) < N := by exact_mod_cast h1
      omega
    have h3 : (roundHalfEven (p / ulp p) : ℚ) ≤ N - 1 := by exact_mod_cast h2
    have h4 : p / ulp p ≤ N - 1 / 2 := by linarith
    rw [div_le_iff₀ hq] at h4
    linarith
  · have h1 : (N : ℚ) ≤ roundHalfEven (p / ulp p) := le_of_mul_le_mul_right h hq
    have h4 : (N : ℚ) - 1 / 2 ≤ p / ulp p := by linarith
    rw [le_div_iff₀ hq] at h4
    linarith
  · have h1 : p / ulp p ≤ (N : ℚ) := by rw [div_le_iff₀ hq]; exact h
    have h2 := roundHalfEven_le _ _ h1
    have h3 : (roundHalfEven (p / ulp p) : ℚ) ≤ N := by exact_mod_cast h2
    exact mul_le_mul_of_nonneg_right h3 hq.le
  · have h1 : (N : ℚ) ≤ p / ulp p := by rw [le_div_iff₀ hq]; exact h
    have h2 := roundHalfEven_ge _ _ h1
    have h3 : (N : ℚ) ≤ roundHalfEven (p / ulp p) := by exact_mod_cast h2
    exact mul_le_mul_of_nonneg_right h3 hq.le

/-- For `0 ≤ p ≤ 511` the spacing around `p` is `2 ^ (E - 52)` with `E ≤ 8`, so every integer
lies on the grid around `p`, and the spacing is at most `2 ^ (-44)`. -/
theorem ulp_small (p : ℚ) (h0 : 0 ≤ p) (h1 : p ≤ 511) :
    (∀ m : Int, ∃ N : Int, (m : ℚ) = N * ulp p) ∧ ulp p ≤ pow2 (-44) := by
  have hE : max (binade p) (-1022) ≤ 8 := by
    rcases h0.eq_or_lt with h | h
    · subst h
      decide!
    · obtain ⟨lo, _⟩ := binade_spec p h.ne'
      rw [abs_of_pos h] at lo
      by_contra hcon
      have h9 : 9 ≤ binade p := by omega
      have := pow2_le_pow2 h9
      have e9 : pow2 9 = 512 := by decide!
      linarith
  constructor
  · intro m
    obtain ⟨n, hn⟩ : ∃ n : Nat, (n : Int) = 52 - max (binade p) (-1022) :=
      ⟨(52 - max (binade p) (-1022)).toNat, by omega⟩
    refine ⟨m * 2 ^ n, ?_⟩
    have hu : ulp p = (2 : ℚ) ^ (-(n : Int)) := by
      unfold ulp
      rw [pow2_eq, hn]
      congr 1
      ring
    rw [hu, zpow_neg, zpow_natCast]
    push_cast
    field_simp
  · unfold ulp
    exact pow2_le_pow2 (by omega)

theorem ulp_ge_of_le (p : ℚ) (k : Nat) (hk : 1 ≤ k) (h : (k : ℚ) ≤ p) :
    pow2 ((log2Nat k : Int) - 52) ≤ ulp p := by
  have h0 : 0 < p := lt_of_lt_of_le (by exact_mod_cast hk) h
  obtain ⟨_, hi⟩ := binade_spec p h0.ne'
  rw [abs_of_pos h0] at hi
  obtain ⟨klo, _⟩ := log2Nat_spec k hk
  have klo' : (2 : ℚ) ^ (log2Nat k : Int) ≤ (k : ℚ) := by
    rw [zpow_natCast]; exact_mod_cast klo
  have : (2 : ℚ) ^ (log2Nat k : Int) < (2 : ℚ) ^ (binade p + 1) := by
    rw [← pow2_eq (binade p + 1)]
    linarith
  have hlt : (log2Nat k : Int) < binade p + 1 :=
    (zpow_lt_zpow_iff_right₀ (by norm_num : (1 : ℚ) < 2)).mp this
  unfold ulp
  exact pow2_le_pow2 (by omega)

theorem pow2_half (e : Int) : pow2 (e - 1) = pow2 e / 2 := by
  rw [pow2_eq, pow2_eq, zpow_sub_one₀ (by norm_num)]
  ring

theorem truncToInt_eq_floor (x : ℚ) (h : 0 ≤ x) : truncToInt x = ⌊x⌋ := by
  unfold truncToInt
  rw [Rat.floor_def, Int.tdiv_eq_ediv (Rat.num_nonneg.mpr h) (Int.ofNat_nonneg _)]

/-- The integer that `int(speed * PWM_MAX)` yields for a speed in [0,1], with the position of
the exact product relative to it. -/
theorem stored_pwm (s : ℚ) (h0 : 0 ≤ s) (h1 : s ≤ 1) :
    ∃ k : Nat, k ≤ 511 ∧ floatToInt (roundF64 (s * PWM_MAX)) = (k : Int) ∧
      (k : Int) = ⌊roundF64 (s * PWM_MAX)⌋ ∧
      s * 511 ≤ k + 1 - ulp (s * 511) / 2 ∧ (k : ℚ) - ulp (s * 511) / 2 ≤ s * 511 ∧
      0 < ulp (s * 511) ∧ ulp (s * 511) ≤ pow2 (-44) := by
  unfold PWM_MAX
  have p0 : 0 ≤ s * 511 := by positivity
  have p1 : s * 511 ≤ 511 := by linarith
  obtain ⟨grid, hu⟩ := ulp_small (s * 511) p0 p1
  have hq : 0 < ulp (s * 511) := pow2_pos _
  have f0 : 0 ≤ roundF64 (s * 511) := by
    obtain ⟨N, hN⟩ := grid 0
    have := (roundF64_grid (s * 511) N).2.2.2 (by rw [← hN]; exact_mod_cast p0)
    rw [← hN] at this
    exact_mod_cast this
  have f1 : roundF64 (s * 511) ≤ 511 := by
    obtain ⟨N, hN⟩ := grid 511
    have := (roundF64_grid (s * 511) N).2.2.1 (by rw [← hN]; exact_mod_cast p1)
    rw [← hN] at this
    exact_mod_cast this
  have k0 : 0 ≤ ⌊roundF64 (s * 511)⌋ := Int.floor_nonneg.mpr f0
  have k1 : ⌊roundF64 (s * 511)⌋ ≤ 511 := by
    have : ⌊roundF64 (s * 511)⌋ ≤ ⌊(511 : ℚ)⌋ := Int.floor_mono f1
    simpa using this
  have flo := Int.floor_le (roundF64 (s * 511))
  have fhi := Int.lt_floor_add_one (roundF64 (s * 511))
  have up : s * 511 ≤ ⌊roundF64 (s * 511)⌋ + 1 - ulp (s * 511) / 2 := by
    obtain ⟨N, hN⟩ := grid (⌊roundF64 (s * 511)⌋ + 1)
    push_cast at hN
    have := (roundF64_grid (s * 511) N).1 (by rw [← hN]; exact fhi)
    rw [← hN] at this
    exact this
  have dn : (⌊roundF64 (s * 511)⌋ : ℚ) - ulp (s * 511) / 2 ≤ s * 511 := by
    obtain ⟨N, hN⟩ := grid ⌊roundF64 (s * 511)⌋
    have := (roundF64_grid (s * 511) N).2.1 (by rw [← hN]; exact flo)
    rw [← hN] at this
    exact this
  obtain ⟨k, hk⟩ := Int.eq_ofNat_of_zero_le k0
  have hkq : (⌊roundF64 (s * 511)⌋ : ℚ) = (k : ℚ) := by rw [hk]; norm_cast
  refine ⟨k, by omega, ?_, hk.symm, ?_, ?_, hq, hu⟩
  · unfold floatToInt
    rw [truncToInt_eq_floor _ f0, if_pos (by omega), hk]
  · rw [← hkq]; exact up
  · rw [← hkq]; exact dn

theorem pwmQuotient_table : ∀ k : Nat, k < 512 → pwmQuotientOk k = true := by
  have h : (List.range 512).all pwmQuotientOk = true := by decide!
  intro k hk
  exact List.all_eq_true.mp h k (List.mem_range.mpr hk)

/-! ## Helper lemmas: actuator -/

theorem set?_get? (a : Arr4 Int) (i : Int) (v : Int) (h0 : 0 ≤ i) (h3 : i ≤ 3) :
    ∃ a', a.set? i v = some a' ∧ a'.get? i = some v := by
  have hi : i = 0 ∨ i = 1 ∨ i = 2 ∨ i = 3 := by omega
  rcases hi with rfl | rfl | rfl | rfl <;> exact ⟨_, rfl, rfl⟩

theorem SetSpeed_within (m m' : Motorboard) (i : Int) (speed : ℚ) (h0 : 0 ≤ speed)
    (h1 : speed ≤ 1) (hm : m.pwms.Within 0 511) (h : m.SetSpeed i speed = .ok m') :
    m'.pwms.Within 0 511 := by
  obtain ⟨k, hk, hst, _⟩ := stored_pwm speed h0 h1
  have hlo : 0 ≤ floatToInt (roundF64 (speed * PWM_MAX)) := by rw [hst]; omega
  have hhi : floatToInt (roundF64 (speed * PWM_MAX)) ≤ 511 := by rw [hst]; omega
  obtain ⟨⟨a0, a1⟩, ⟨b0, b1⟩, ⟨c0, c1⟩, ⟨d0, d1⟩⟩ := hm
  unfold Motorboard.SetSpeed at h
  split at h
  · cases h
  · unfold Arr4.set? at h
    split_ifs at h <;> cases h <;>
      exact ⟨⟨by assumption, by assumption⟩, ⟨by assumption, by assumption⟩,
        ⟨by assumption, by assumption⟩, ⟨by assumption, by assumption⟩⟩

/-- The value `Speed` returns for a stored PWM value `k` written by `SetSpeed(id, s)` is within
1/511 of `s`. -/
theorem quotient_near (s : ℚ) (k : Nat) (hk : k ≤ 511)
    (up : s * 511 ≤ k + 1 - ulp (s * 511) / 2) (dn : (k : ℚ) - ulp (s * 511) / 2 ≤ s * 511)
    (hq : 0 < ulp (s * 511)) (hu : ulp (s * 511) ≤ pow2 (-44)) :
    |roundF64 (roundF64 (k : ℚ) / PWM_MAX) - s| ≤ 1 / 511 := by
  have ht := pwmQuotient_table k (by omega)
  unfold pwmQuotientOk at ht
  obtain ⟨t1, t2, t3, t4⟩ := of_decide_eq_true ht
  unfold PWM_MAX
  rw [t1, abs_le]
  have h45 : pow2 (-44) / 2 = pow2 (-45) := by
    have := pow2_half (-44)
    rw [show (-44 : Int) - 1 = -45 by norm_num] at this
    exact this.symm
  constructor
  · -- s - v ≤ 1/511
    rcases Nat.eq_zero_or_pos k with hz | hpos
    · subst hz
      have v0 : roundF64 ((0 : Nat) / 511 : ℚ) = 0 := by decide!
      rw [v0]
      push_cast at up
      linarith
    · by_cases hle : (k : ℚ) ≤ s * 511
      · have hge := ulp_ge_of_le (s * 511) k hpos hle
        have hh := pow2_half ((log2Nat k : Int) - 52)
        rw [show (log2Nat k : Int) - 52 - 1 = (log2Nat k : Int) - 53 by ring] at hh
        linarith
      · push_neg at hle
        linarith
  · linarith

/-! ## Actuator protocol codec -/

/-- C1: for every four PWM values in 0..511, decoding the command bytes of `pwmCmd` as four
consecutive 9-bit big-endian fields after the three leading bits of byte 0 returns the four
values, so `pwmCmd` is injective on in-range tuples. -/
theorem pwmCmd_decode_roundtrip (m : Motorboard) (h : m.pwms.Within 0 511) :
    pwmDecode m.pwmCmd = some m.pwms ∧
    ∀ m' : Motorboard, m'.pwms.Within 0 511 → m'.pwmCmd = m.pwmCmd → m'.pwms = m.pwms := by
  refine ⟨pwmDecode_pwmCmd m h, fun m' h' hc => ?_⟩
  have e := pwmDecode_pwmCmd m' h'
  rw [hc, pwmDecode_pwmCmd m h] at e
  exact (Option.some.inj e).symm

theorem pwmCmd_decode_roundtrip_witness :
    pwmDecode (Motorboard.pwmCmd { Motorboard.init with pwms := ⟨511, 0, 300, 1⟩ })
      = some ⟨511, 0, 300, 1⟩ :=
  (pwmCmd_decode_roundtrip { Motorboard.init with pwms := ⟨511, 0, 300, 1⟩ } (by decide)).1

/-- C2: for every assignment of the four LEDs to colors in Off, Red, Green, Orange, byte 0 of
`ledCmd` has bit `i + 1` set exactly when LED `i` is Red or Orange, byte 1 has bit `i + 1` set
exactly when LED `i` is Green or Orange, the bits of byte 0 other than bits 1..4 are the fixed
value 0x60, and reading color `i` back as (red bit) + 2 * (green bit) returns the four
colors. -/
theorem ledCmd_decode_roundtrip (m : Motorboard) (h : m.leds.Within LedOff LedOrange) :
    (∀ (i : Int) (c : LedColor), m.leds.get? i = some c →
      ((m.ledCmd.1.testBit (i.toNat + 1) = true ↔ (c = LedRed ∨ c = LedOrange)) ∧
       (m.ledCmd.2.testBit (i.toNat + 1) = true ↔ (c = LedGreen ∨ c = LedOrange)))) ∧
    m.ledCmd.1 &&& 0xe1 = 0x60 ∧
    ledDecode m.ledCmd = m.leds := by
  obtain ⟨pwms, ⟨c0, c1, c2, c3⟩, ch⟩ := m
  obtain ⟨⟨a0, a1⟩, ⟨b0, b1⟩, ⟨d0, d1⟩, ⟨e0, e1⟩⟩ := h
  simp only [LedOff, LedOrange] at a0 a1 b0 b1 d0 d1 e0 e1
  have key : ∀ i : Int, (Arr4.mk c0 c1 c2 c3).get? i =
      if i = 0 then some c0 else if i = 1 then some c1 else if i = 2 then some c2
      else if i = 3 then some c3 else none := fun i => rfl
  have hcmd : Motorboard.ledCmd ⟨pwms, ⟨c0, c1, c2, c3⟩, ch⟩ =
      Motorboard.ledCmd ⟨⟨0, 0, 0, 0⟩, ⟨c0, c1, c2, c3⟩, false⟩ := rfl
  rw [hcmd]
  show _ ∧ _ ∧ ledDecode _ = Arr4.mk c0 c1 c2 c3
  refine ⟨fun i c hc => ?_, ?_, ?_⟩
  · rw [key] at hc
    split_ifs at hc with i0 i1 i2 i3 <;> cases hc <;> subst_vars <;>
      interval_cases c0 <;> interval_cases c1 <;> interval_cases c2 <;>
        interval_cases c3 <;> decide
  · interval_cases c0 <;> interval_cases c1 <;> interval_cases c2 <;>
      interval_cases c3 <;> decide
  · interval_cases c0 <;> interval_cases c1 <;> interval_cases c2 <;>
      interval_cases c3 <;> decide

theorem ledCmd_decode_roundtrip_witness :
    Motorboard.ledCmd { Motorboard.init with leds := ⟨LedRed, LedGreen, LedOrange, LedOff⟩ }
      = (0x6a, 0x0c) ∧
    ledDecode (Motorboard.ledCmd
      { Motorboard.init with leds := ⟨LedRed, LedGreen, LedOrange, LedOff⟩ })
      = ⟨LedRed, LedGreen, LedOrange, LedOff⟩ :=
  ⟨by decide, (ledCmd_decode_roundtrip
    { Motorboard.init with leds := ⟨LedRed, LedGreen, LedOrange, LedOff⟩ } (by decide)).2.2⟩

/-! ## Actuator driver -/

/-- C3 (evaluation at the failing input): with motor id `-1` the guard `motorId >= len(m.pwms)`
does not fire and the index expression aborts both `SetSpeed` and `Speed` instead of returning an
error; ids from 4 up get the error and ids 0..3 succeed. -/
theorem SetSpeed_Speed_negative_id_aborts :
    Motorboard.init.SetSpeed (-1) (1 / 2) = .crash ∧
    Motorboard.init.Speed (-1) = .crash ∧
    Motorboard.init.SetSpeed 5 (1 / 2) = .error (.unknownMotor 5) ∧
    Motorboard.init.Speed 5 = .error (.unknownMotor 5) ∧
    Motorboard.init.Speed 3 = .ok 0 := by
  refine ⟨by decide!, by decide!, by decide!, by decide!, by decide!⟩

/-- C4 (counterexample): from the initial state `SetSpeed(0, 2)` returns no error and stores
the PWM value 1022, which is above 511; `SetSpeed(0, 2^70)` returns no error either and stores
the result `-2^63` of the out-of-range conversion. -/
theorem SetSpeed_stores_out_of_range :
    Motorboard.init.SetSpeed 0 2 = .ok { Motorboard.init with pwms := ⟨1022, 0, 0, 0⟩ } ∧
    ¬ (runSetSpeeds Motorboard.init [(0, 2)]).pwms.Within 0 511 ∧
    Motorboard.init.SetSpeed 0 (2 ^ 70)
      = .ok { Motorboard.init with pwms := ⟨-9223372036854775808, 0, 0, 0⟩ } := by
  refine ⟨by decide!, by decide!, by decide!⟩

/-- C4 (amended): every stored PWM value stays in 0..511 in every state reached from the
initial all-zero state by a sequence of `SetSpeed` calls with arbitrary motor ids and speeds
in [0,1]; `SetSpeed` itself never rejects a speed: for a motor id in 0..3 it returns no error
whatever the speed is, and stores the `float64` product `speed * 511` converted to `int`. -/
theorem SetSpeed_pwm_range_for_unit_speeds (calls : List (Int × ℚ))
    (h : ∀ call ∈ calls, 0 ≤ call.2 ∧ call.2 ≤ 1) :
    (runSetSpeeds Motorboard.init calls).pwms.Within 0 511 ∧
    ∀ (m : Motorboard) (speed : ℚ) (motorId : Int), 0 ≤ motorId → motorId ≤ 3 →
      ∃ m', m.SetSpeed motorId speed = .ok m' ∧
        m'.pwms.get? motorId = some (floatToInt (roundF64 (speed * PWM_MAX))) := by
  constructor
  · have gen : ∀ (cs : List (Int × ℚ)) (m : Motorboard), m.pwms.Within 0 511 →
        (∀ call ∈ cs, 0 ≤ call.2 ∧ call.2 ≤ 1) → (runSetSpeeds m cs).pwms.Within 0 511 := by
      intro cs
      induction cs with
      | nil => intro m hm _; exact hm
      | cons c cs ih =>
        intro m hm hc
        have hc1 := hc c (List.mem_cons_self _ _)
        have hcs : ∀ call ∈ cs, 0 ≤ call.2 ∧ call.2 ≤ 1 :=
          fun call hmem => hc call (List.mem_cons_of_mem _ hmem)
        unfold runSetSpeeds
        cases hs : m.SetSpeed c.1 c.2 with
        | ok m' => exact ih m' (SetSpeed_within m m' c.1 c.2 hc1.1 hc1.2 hm hs) hcs
        | error e => exact ih m hm hcs
        | crash => exact ih m hm hcs
    exact gen calls Motorboard.init (by decide) h
  · intro m speed motorId h0 h3
    obtain ⟨a', hs, hg⟩ :=
      set?_get? m.pwms motorId (floatToInt (roundF64 (speed * PWM_MAX))) h0 h3
    refine ⟨{ m with pwms := a' }, ?_, hg⟩
    unfold Motorboard.SetSpeed
    rw [if_neg (by omega), hs]

theorem SetSpeed_pwm_range_for_unit_speeds_witness :
    (runSetSpeeds Motorboard.init [(0, 1), (7, 1 / 2), (-1, 1 / 3), (2, 3 / 8)]).pwms
      = ⟨511, 0, 191, 0⟩ ∧
    (runSetSpeeds Motorboard.init [(0, 1), (7, 1 / 2), (-1, 1 / 3), (2, 3 / 8)]).pwms.Within
      0 511 :=
  ⟨by decide!,
   (SetSpeed_pwm_range_for_unit_speeds [(0, 1), (7, 1 / 2), (-1, 1 / 3), (2, 3 / 8)]
     (by
       intro call hc
       simp only [List.mem_cons, List.mem_singleton, List.not_mem_nil, or_false] at hc
       rcases hc with rfl | rfl | rfl | rfl <;> norm_num)).1⟩

/-- C5: for every motor id in 0..3 and every speed in [0,1], `SetSpeed(id, speed)` succeeds
and `Speed(id)` then returns a value that differs from `speed` by at most 1/511. -/
theorem Speed_after_SetSpeed (m : Motorboard) (motorId : Int) (speed : ℚ)
    (h0 : 0 ≤ motorId) (h3 : motorId ≤ 3) (s0 : 0 ≤ speed) (s1 : speed ≤ 1) :
    ∃ m' v, m.SetSpeed motorId speed = .ok m' ∧ m'.Speed motorId = .ok v ∧
      |v - speed| ≤ 1 / 511 := by
  obtain ⟨k, hk, hst, _, up, dn, hq, hu⟩ := stored_pwm speed s0 s1
  obtain ⟨a', hs, hg⟩ :=
    set?_get? m.pwms motorId (floatToInt (roundF64 (speed * PWM_MAX))) h0 h3
  refine ⟨{ m with pwms := a' }, roundF64 (roundF64 (k : ℚ) / PWM_MAX), ?_, ?_,
    quotient_near speed k hk up dn hq hu⟩
  · unfold Motorboard.SetSpeed
    rw [if_neg (by omega), hs]
  · unfold Motorboard.Speed
    rw [if_neg (by omega)]
    simp only [hg, hst]
    norm_cast

theorem Speed_after_SetSpeed_witness :
    ∃ m' v, Motorboard.init.SetSpeed 0 (1 / 2) = .ok m' ∧ m'.Speed 0 = .ok v ∧
      |v - 1 / 2| ≤ 1 / 511 :=
  Speed_after_SetSpeed Motorboard.init 0 (1 / 2) (by decide) (by decide) (by norm_num)
    (by norm_num)

/-- C6 (counterexample): `SetSpeed(0, 0.375)` stores 191, while `0.375 * 511 = 191.625` and
the nearest integer is 192. -/
theorem SetSpeed_truncates_not_rounds :
    (∃ m', Motorboard.init.SetSpeed 0 (3 / 8) = .ok m' ∧ m'.pwms.get? 0 = some 191) ∧
    round ((3 / 8 : ℚ) * PWM_MAX) = 192 := by
  refine ⟨⟨{ Motorboard.init with pwms := ⟨191, 0, 0, 0⟩ }, by decide!, rfl⟩, ?_⟩
  rw [round_eq, Int.floor_eq_iff]
  unfold PWM_MAX
  constructor <;> norm_num

/-- C6 (amended): for every motor id in 0..3 and every speed in [0,1], the PWM integer `k`
that `SetSpeed` stores for that motor is the `float64` product `speed * 511` with its fraction
discarded, not the nearest integer: `0 ≤ k ≤ 511` and
`speed * 511 - 1 < k ≤ speed * 511 + 2^(-45)`, so `k` is the integer part of `speed * 511`, or
the next integer when the product lies within `2^(-45)` below it. -/
theorem SetSpeed_stores_truncated_product (m : Motorboard) (motorId : Int) (speed : ℚ)
    (h0 : 0 ≤ motorId) (h3 : motorId ≤ 3) (s0 : 0 ≤ speed) (s1 : speed ≤ 1) :
    ∃ (m' : Motorboard) (k : Int), m.SetSpeed motorId speed = .ok m' ∧
      m'.pwms.get? motorId = some k ∧ k = ⌊roundF64 (speed * PWM_MAX)⌋ ∧
      0 ≤ k ∧ k ≤ 511 ∧ speed * 511 - 1 < k ∧ (k : ℚ) ≤ speed * 511 + 1 / 2 ^ 45 := by
  obtain ⟨k, hk, hst, hfl, up, dn, hq, hu⟩ := stored_pwm speed s0 s1
  obtain ⟨a', hs, hg⟩ :=
    set?_get? m.pwms motorId (floatToInt (roundF64 (speed * PWM_MAX))) h0 h3
  have h45 : pow2 (-44) / 2 = 1 / 2 ^ 45 := by decide!
  refine ⟨{ m with pwms := a' }, k, ?_, ?_, hfl, by omega, by omega, ?_, ?_⟩
  · unfold Motorboard.SetSpeed
    rw [if_neg (by omega), hs]
  · rw [hg, hst]
  · push_cast; linarith
  · push_cast; linarith

theorem SetSpeed_stores_truncated_product_witness :
    (∃ (m' : Motorboard) (k : Int), Motorboard.init.SetSpeed 2 (3 / 8) = .ok m' ∧
      m'.pwms.get? 2 = some k ∧ k = ⌊roundF64 (3 / 8 * PWM_MAX)⌋ ∧
      0 ≤ k ∧ k ≤ 511 ∧ (3 / 8 : ℚ) * 511 - 1 < k ∧ (k : ℚ) ≤ 3 / 8 * 511 + 1 / 2 ^ 45) ∧
    Motorboard.init.SetSpeed 2 (3 / 8) = .ok { Motorboard.init with pwms := ⟨0, 0, 191, 0⟩ } ∧
    Motorboard.init.SetSpeed 2 (35253226045953 / 18014398509481984)
      = .ok { Motorboard.init with pwms := ⟨0, 0, 1, 0⟩ } :=
  ⟨SetSpeed_stores_truncated_product Motorboard.init 2 (3 / 8) (by decide) (by decide)
    (by norm_num) (by norm_num), by decide!, by decide!⟩

/-! ## Attitude mixer -/

theorem clipBand_bounds (val band : ℚ) (h : 0 ≤ band) :
    0 ≤ clipBand val band ∧ clipBand val band ≤ band := by
  unfold clipBand clip
  have h2 : 0 ≤ band / 2 := by positivity
  constructor
  · have := le_max_right (min val (band / 2)) (-(band / 2))
    linarith
  · have hneg : -(band / 2) ≤ band / 2 := by linarith
    have : max (min val (band / 2)) (-(band / 2)) ≤ band / 2 :=
      max_le (min_le_right _ _) hneg
    linarith

theorem throttle_bounds (c : Controller) (altOut : ℚ)
    (h : c.ThrottleMin ≤ 1 - c.RotationBand) :
    c.ThrottleMin ≤ c.throttle altOut ∧ c.throttle altOut ≤ 1 - c.RotationBand := by
  unfold Controller.throttle
  exact ⟨le_max_left _ _, max_le h (min_le_left _ _)⟩

/-- When the band handed to `clipBand` is the controller's own rotation band, a rotation band
in (0,1) and a minimum throttle between 0 and `1 - RotationBand` keep the common throttle at
most `1 - RotationBand` and the four motor outputs in [0,1]. -/
theorem Control_outputs_of_band_eq (c : Controller) (rotationBand : ℚ)
    (actual desired : Placement) (dt : ℚ)
    (hrb : rotationBand = c.RotationBand)
    (hb0 : 0 < c.RotationBand) (_ : c.RotationBand < 1)
    (ht0 : 0 ≤ c.ThrottleMin) (ht1 : c.ThrottleMin ≤ 1 - c.RotationBand) :
    c.throttle (c.Altitude.Update actual.Altitude desired.Altitude dt).2 ≤ 1 - c.RotationBand ∧
    (c.Control rotationBand actual desired dt).2.Between 0 1 := by
  subst hrb
  have ht := throttle_bounds c (c.Altitude.Update actual.Altitude desired.Altitude dt).2 ht1
  refine ⟨ht.2, ?_⟩
  have mix : ∀ v : ℚ,
      0 ≤ c.throttle (c.Altitude.Update actual.Altitude desired.Altitude dt).2 +
        clipBand v c.RotationBand ∧
      c.throttle (c.Altitude.Update actual.Altitude desired.Altitude dt).2 +
        clipBand v c.RotationBand ≤ 1 := by
    intro v
    have hc := clipBand_bounds v c.RotationBand hb0.le
    constructor <;> linarith [ht.1, ht.2, hc.1, hc.2]
  exact ⟨mix _, mix _, mix _, mix _⟩

/-- Whatever positive value the identifier `rotationBand` has, some controller that meets the
conditions on its own rotation band and minimum throttle gets a motor output above 1. -/
theorem Control_overshoots_for_every_positive_band (rotationBand : ℚ) (h : 0 < rotationBand) :
    ∃ (c : Controller) (actual desired : Placement) (dt : ℚ),
      0 < c.RotationBand ∧ c.RotationBand < 1 ∧ 0 ≤ c.ThrottleMin ∧
      c.ThrottleMin ≤ 1 - c.RotationBand ∧
      1 < (c.Control rotationBand actual desired dt).2.e0 := by
  have hR0 : 0 < min rotationBand 1 / 2 := by
    have : 0 < min rotationBand 1 := lt_min h one_pos
    linarith
  have hR1 : min rotationBand 1 / 2 ≤ 1 / 2 := by
    have := min_le_right rotationBand 1
    linarith
  have hRb : min rotationBand 1 / 2 < rotationBand := by
    have := min_le_left rotationBand 1
    linarith
  refine ⟨{ RotationBand := min rotationBand 1 / 2, ThrottleHover := 0,
            ThrottleMin := 1 - min rotationBand 1 / 2,
            Pitch := ⟨0, 0, 0, 0, 0⟩, Roll := ⟨0, 0, 0, 0, 0⟩, Yaw := ⟨1, 0, 0, 0, 0⟩,
            Altitude := ⟨0, 0, 0, 0, 0⟩ },
    ⟨0, 0, 0, 0⟩, ⟨0, 0, rotationBand, 0⟩, 0, hR0, by linarith, by linarith, le_refl _, ?_⟩
  have hclip : clipBand rotationBand rotationBand = rotationBand := by
    unfold clipBand clip
    rw [min_eq_right (by linarith), max_eq_left (by linarith)]
    ring
  simp only [Controller.Control, Controller.throttle, PID.Update]
  norm_num
  rw [hclip]
  linarith

/-- C8 (evaluation at the failing input): with pitch error 1/10 and roll error 0, `Control`
leaves the Pitch PID as it was, although one update of it would change its state and give the
output 1/5; the pitch error is fed to the Roll PID instead, whose integral becomes 1/10, and
the mixer uses that PID's outputs. -/
theorem Control_updates_Roll_for_pitch :
    (exampleController.Control (1 / 2) ⟨0, 0, 0, 0⟩ ⟨1 / 10, 0, 0, 0⟩ 1).1.Pitch
      = exampleController.Pitch ∧
    exampleController.Pitch.Update 0 (1 / 10) 1 = (⟨1, 1, 0, 1 / 10, 1 / 10⟩, 1 / 5) ∧
    (exampleController.Control (1 / 2) ⟨0, 0, 0, 0⟩ ⟨1 / 10, 0, 0, 0⟩ 1).1.Roll
      = ⟨0, 1, 0, 1 / 10, 0⟩ ∧
    (exampleController.Roll.Update 0 0 1).1 = exampleController.Roll ∧
    (exampleController.Control (1 / 2) ⟨0, 0, 0, 0⟩ ⟨1 / 10, 0, 0, 0⟩ 1).2
      = ⟨9 / 20, 1 / 4, 1 / 20, 1 / 4⟩ := by
  refine ⟨by decide!, by decide!, by decide!, by decide!, by decide!⟩

/-! ## Helper lemmas: calibration -/

theorem Floats.get_ofFn (g : Fin 6 → ℚ) (i : Fin 6) : (Floats.ofFn g).get i = g i := by
  fin_cases i <;> rfl

theorem collectLoop_ok {ε : Type} (reads : Nat → Except ε Data) :
    ∀ (fuel k : Nat) (retries : Int) (samples : List Floats) (sums : Floats)
      (r : List Floats × Floats),
      collectLoop reads fuel k retries samples sums = some (.ok r) →
      samples.length ≤ 40 →
      (∀ i, sums.get i = (samples.map fun s => s.get i).sum) →
      r.1.length = 40 ∧ ∀ i, r.2.get i = (r.1.map fun s => s.get i).sum := by
  intro fuel
  induction fuel with
  | zero => intro k retries samples sums r h; simp [collectLoop] at h
  | succ fuel ih =>
    intro k retries samples sums r h hlen hsum
    unfold collectLoop at h
    by_cases hlt : samples.length < 40
    · rw [if_pos hlt] at h
      cases hr : reads k with
      | error err =>
        rw [hr] at h
        simp only at h
        by_cases hret : retries ≤ 0
        · rw [if_pos hret] at h
          simp at h
        · rw [if_neg hret] at h
          exact ih _ _ _ _ _ h hlen hsum
      | ok data =>
        rw [hr] at h
        simp only at h
        refine ih _ _ _ _ _ h (by simp; omega) (fun i => ?_)
        rw [Floats.get_ofFn, hsum i]
        simp
    · rw [if_neg hlt] at h
      simp only [Option.some.injEq, Except.ok.injEq] at h
      subst h
      exact ⟨by simp only; omega, hsum⟩

theorem collectLoop_isSome {ε : Type} (reads : Nat → Except ε Data) :
    ∀ (fuel k : Nat) (retries : Int) (samples : List Floats) (sums : Floats),
      0 ≤ retries → (40 - samples.length) + retries.toNat + 1 ≤ fuel →
      (collectLoop reads fuel k retries samples sums).isSome = true := by
  intro fuel
  induction fuel with
  | zero => intro k retries samples sums _ h; omega
  | succ fuel ih =>
    intro k retries samples sums hret hfuel
    unfold collectLoop
    by_cases hlt : samples.length < 40
    · rw [if_pos hlt]
      cases hr : reads k with
      | error err =>
        simp only
        by_cases h0 : retries ≤ 0
        · rw [if_pos h0]; rfl
        · rw [if_neg h0]
          exact ih _ _ _ _ (by omega) (by omega)
      | ok data =>
        simp only
        exact ih _ _ _ _ hret (by simp only [List.length_append, List.length_singleton]; omega)
    · rw [if_neg hlt]; rfl

theorem calSqrSums_get (means : Floats) (i : Fin 6) :
    ∀ (samples : List Floats) (acc : Floats),
      (samples.foldl
        (fun sqrSums values => Floats.ofFn fun i =>
          sqrSums.get i + (values.get i - means.get i) * (values.get i - means.get i))
        acc).get i
      = acc.get i + (samples.map fun s => (s.get i - means.get i) ^ 2).sum := by
  intro samples
  induction samples with
  | nil => intro acc; simp
  | cons s samples ih =>
    intro acc
    rw [List.foldl_cons, ih, Floats.get_ofFn]
    simp only [List.map_cons, List.sum_cons]
    ring

theorem find?_finRange_six_first (p : Fin 6 → Bool) (i : Fin 6) (hi : p i = true)
    (hlt : ∀ j, j < i → p j = false) : (List.finRange 6).find? p = some i := by
  have e : List.finRange 6 = [0, 1, 2, 3, 4, 5] := rfl
  rw [e]
  fin_cases i
  · simp_all [List.find?]
  · have h0 := hlt 0 (by decide)
    simp_all [List.find?]
  · have h0 := hlt 0 (by decide)
    have h1 := hlt 1 (by decide)
    simp_all [List.find?]
  · have h0 := hlt 0 (by decide)
    have h1 := hlt 1 (by decide)
    have h2 := hlt 2 (by decide)
    simp_all [List.find?]
  · have h0 := hlt 0 (by decide)
    have h1 := hlt 1 (by decide)
    have h2 := hlt 2 (by decide)
    have h3 := hlt 3 (by decide)
    simp_all [List.find?]
  · have h0 := hlt 0 (by decide)
    have h1 := hlt 1 (by decide)
    have h2 := hlt 2 (by decide)
    have h3 := hlt 3 (by decide)
    have h4 := hlt 4 (by decide)
    simp_all [List.find?]

theorem Floats.zero_get (i : Fin 6) : Floats.zero.get i = 0 := by
  fin_cases i <;> rfl

theorem map_floats_axis (frames : List Data) (g : ℚ → ℚ) (i : Fin 6) :
    ((frames.map fun d => d.ImuData.Floats).map fun s => g (s.get i))
      = frames.map fun d => g (d.axis i) := by
  rw [List.map_map]
  apply List.map_congr_left
  intro d _
  fin_cases i <;> rfl

theorem names_getD (i : Fin 6) : names.getD i.val "" = axisName i := by
  fin_cases i <;> rfl

theorem framesRead_succ {ε : Type} (reads : Nat → Except ε Data) (k : Nat) :
    framesRead reads (k + 1) = framesRead reads k ++
      (match reads k with
        | .ok d => [d]
        | .error _ => []) := by
  unfold framesRead
  rw [List.range_succ, List.filterMap_append]
  cases h : reads k <;> simp [h]

theorem framesRead_add {ε : Type} (reads : Nat → Except ε Data) (k : Nat) :
    ∀ d : Nat, ∃ rest, framesRead reads (k + d) = framesRead reads k ++ rest ∧
      rest.length ≤ d := by
  intro d
  induction d with
  | zero => exact ⟨[], by simp, by simp⟩
  | succ d ih =>
    obtain ⟨rest, h1, h2⟩ := ih
    rw [← Nat.add_assoc, framesRead_succ, h1]
    cases reads (k + d) with
    | error e => exact ⟨rest, by simp, by omega⟩
    | ok x => exact ⟨rest ++ [x], by simp, by simp; omega⟩

/-- When the first `K ≤ 140` calls of `NextData` return exactly 40 frames, the first loop of
`Calibrate` ends with exactly these frames as its samples. -/
theorem collectLoop_reads {ε : Type} (reads : Nat → Except ε Data) (K : Nat)
    (hK : (framesRead reads K).length = 40) (hK140 : K ≤ 140) :
    ∀ (fuel k : Nat) (retries : Int) (sums : Floats), k ≤ K → K - k + 1 ≤ fuel →
      retries = 100 - ((k : Int) - ((framesRead reads k).length : Int)) →
      ∃ sums', collectLoop reads fuel k retries
          ((framesRead reads k).map fun d => d.ImuData.Floats) sums
        = some (.ok ((framesRead reads K).map (fun d => d.ImuData.Floats), sums')) := by
  intro fuel
  induction fuel with
  | zero => intro k retries sums _ h; omega
  | succ fuel ih =>
    intro k retries sums hkK hfuel hret
    obtain ⟨rest, hrest, hrl⟩ := framesRead_add reads k (K - k)
    rw [show k + (K - k) = K by omega] at hrest
    have hlenK : (framesRead reads k).length + rest.length = 40 := by
      rw [← hK, hrest, List.length_append]
    unfold collectLoop
    by_cases hlt : ((framesRead reads k).map fun d => d.ImuData.Floats).length < 40
    · rw [if_pos hlt]
      rw [List.length_map] at hlt
      have hk : k < K := by
        rcases Nat.lt_or_ge k K with h | h
        · exact h
        · have : k = K := by omega
          subst this
          omega
      have hsucc := framesRead_succ reads k
      obtain ⟨rest1, hrest1, hrl1⟩ := framesRead_add reads (k + 1) (K - (k + 1))
      rw [show k + 1 + (K - (k + 1)) = K by omega] at hrest1
      have hlen1 : (framesRead reads (k + 1)).length + rest1.length = 40 := by
        rw [← hK, hrest1, List.length_append]
      cases hr : reads k with
      | error err =>
        rw [hr] at hsucc
        simp only [List.append_nil] at hsucc
        simp only
        have hpos : ¬ retries ≤ 0 := by
          rw [hsucc] at hlen1
          omega
        rw [if_neg hpos]
        have := ih (k + 1) (retries - 1) sums (by omega) (by omega)
          (by rw [hsucc]; push_cast; omega)
        rw [hsucc] at this
        exact this
      | ok d =>
        rw [hr] at hsucc
        simp only
        have := ih (k + 1) retries
          (Floats.ofFn fun i => sums.get i + d.ImuData.Floats.get i) (by omega) (by omega)
          (by rw [hsucc, List.length_append]; push_cast; simp; omega)
        rw [hsucc, List.map_append] at this
        exact this
    · rw [if_neg hlt]
      rw [List.length_map] at hlt
      have hnil : rest = [] := List.length_eq_zero.mp (by omega)
      rw [hnil, List.append_nil] at hrest
      exact ⟨sums, by rw [hrest]⟩

/-- The statistics `Calibrate` computes in a run whose first `K ≤ 140` reads return exactly 40
frames are the mean and the standard deviation of these frames. -/
theorem calibrate_stats {ε : Type} (reads : Nat → Except ε Data) (K : Nat)
    (hK : (framesRead reads K).length = 40) (hK140 : K ≤ 140) :
    ∃ sums, collectSamples reads
        = some (.ok ((framesRead reads K).map (fun d => d.ImuData.Floats), sums)) ∧
      (∀ i, (calMeans ((framesRead reads K).map fun d => d.ImuData.Floats) sums).get i
        = axisMean (framesRead reads K) i) ∧
      (∀ (sqrt : ℚ → ℚ) (i : Fin 6),
        (calStdevs sqrt ((framesRead reads K).map fun d => d.ImuData.Floats)
          (calSqrSums ((framesRead reads K).map fun d => d.ImuData.Floats)
            (calMeans ((framesRead reads K).map fun d => d.ImuData.Floats) sums))).get i
          = axisStdev sqrt (framesRead reads K) i) := by
  obtain ⟨sums, hread⟩ := collectLoop_reads reads K hK hK140 141 0 100 Floats.zero
    (by omega) (by omega) (by simp [framesRead])
  have h0 : (framesRead reads 0).map (fun d => d.ImuData.Floats) = [] := by simp [framesRead]
  rw [h0] at hread
  obtain ⟨hlen, hsum⟩ := collectLoop_ok reads 141 0 100 [] Floats.zero _ hread
    (by simp) (fun i => by simp [Floats.zero_get])
  simp only at hlen hsum
  have hmean : ∀ i, (calMeans ((framesRead reads K).map fun d => d.ImuData.Floats) sums).get i
      = axisMean (framesRead reads K) i := by
    intro i
    unfold calMeans axisMean
    rw [Floats.get_ofFn, hsum i, hlen, map_floats_axis (framesRead reads K) (fun x => x) i]
    norm_num
  refine ⟨sums, hread, hmean, fun sqrt i => ?_⟩
  unfold calStdevs calSqrSums axisStdev axisVariance
  rw [Floats.get_ofFn, calSqrSums_get, Floats.zero_get, zero_add, hmean i, hlen,
    map_floats_axis (framesRead reads K) (fun x => (x - axisMean (framesRead reads K) i) ^ 2) i]
  norm_num

/-! ## Calibration engine -/

/-- C10: for every run of `Calibrate` in which 40 samples are read (the first `K ≤ 140` calls
of `NextData` return exactly 40 frames), `Calibrate` returns an `ErrStdev` error exactly when
the population standard deviation of some axis over these frames exceeds 10; the error then
carries the standard deviation and the name ("Ax", "Ay", "Az", "Gx", "Gy" or "Gz") of the first
such axis in that order, and the stored calibration is left unchanged. -/
theorem Calibrate_noisy_names_first_axis {ε : Type} (sqrt : ℚ → ℚ) (n : Navboard)
    (reads : Nat → Except ε Data) (K : Nat)
    (hK : (framesRead reads K).length = 40) (hK140 : K ≤ 140) :
    ((∃ n' sd name, n.Calibrate sqrt reads = some (n', some (.ErrStdev sd name))) ↔
      ∃ i, 10 < axisStdev sqrt (framesRead reads K) i) ∧
    (∀ i, 10 < axisStdev sqrt (framesRead reads K) i →
      (∀ j, j < i → ¬ 10 < axisStdev sqrt (framesRead reads K) j) →
      n.Calibrate sqrt reads =
        some (n, some (.ErrStdev (axisStdev sqrt (framesRead reads K) i) (axisName i)))) := by
  obtain ⟨sums, hread, _, hstd⟩ := calibrate_stats reads K hK hK140
  constructor
  · cases hf : (List.finRange 6).find? (fun i => decide
        ((calStdevs sqrt ((framesRead reads K).map fun d => d.ImuData.Floats)
          (calSqrSums ((framesRead reads K).map fun d => d.ImuData.Floats)
            (calMeans ((framesRead reads K).map fun d => d.ImuData.Floats) sums))).get i
              > 10)) with
    | none =>
      have hq : ∀ i, ¬ 10 < axisStdev sqrt (framesRead reads K) i := by
        intro i
        have := (List.find?_eq_none.mp hf) i (List.mem_finRange i)
        rw [hstd sqrt i] at this
        simpa using this
      constructor
      · rintro ⟨n', sd, name, h⟩
        unfold Navboard.Calibrate at h
        rw [hread] at h
        simp only [hf] at h
        simp at h
      · rintro ⟨i, hi⟩
        exact absurd hi (hq i)
    | some i0 =>
      have hi0 := List.find?_some hf
      rw [hstd sqrt i0] at hi0
      constructor
      · intro _
        exact ⟨i0, by simpa using hi0⟩
      · intro _
        refine ⟨n, (calStdevs sqrt ((framesRead reads K).map fun d => d.ImuData.Floats)
          (calSqrSums ((framesRead reads K).map fun d => d.ImuData.Floats)
            (calMeans ((framesRead reads K).map fun d => d.ImuData.Floats) sums))).get i0,
          names.getD i0.val "", ?_⟩
        unfold Navboard.Calibrate
        rw [hread]
        simp only [hf]
  · intro i hi hlt
    have hf : (List.finRange 6).find? (fun i => decide
        ((calStdevs sqrt ((framesRead reads K).map fun d => d.ImuData.Floats)
          (calSqrSums ((framesRead reads K).map fun d => d.ImuData.Floats)
            (calMeans ((framesRead reads K).map fun d => d.ImuData.Floats) sums))).get i
              > 10)) = some i := by
      apply find?_finRange_six_first
      · rw [hstd sqrt i]; simpa using hi
      · intro j hj
        rw [hstd sqrt j]
        simpa using hlt j hj
    unfold Navboard.Calibrate
    rw [hread]
    simp only [hf, hstd sqrt i, names_getD]

theorem Calibrate_noisy_names_first_axis_witness :
    Navboard.init.Calibrate exampleSqrt noisyReads =
      some (Navboard.init, some (.ErrStdev 20 "Gy")) :=
  ((Calibrate_noisy_names_first_axis exampleSqrt Navboard.init noisyReads 40 (by decide!)
    (by decide)).2 4 (by decide!) (by decide!)).trans (by decide!)

theorem Calibrate_returns {ε : Type} (sqrt : ℚ → ℚ) (n : Navboard)
    (reads : Nat → Except ε Data) : (n.Calibrate sqrt reads).isSome = true := by
  have h := collectLoop_isSome reads 141 0 100 [] Floats.zero (by decide) (by decide)
  unfold Navboard.Calibrate
  cases hc : collectSamples reads with
  | none =>
    unfold collectSamples at hc
    rw [hc] at h
    cases h
  | some r =>
    cases r with
    | error err => rfl
    | ok p =>
      obtain ⟨samples, sums⟩ := p
      simp only
      split <;> rfl

end Godrone
